import Mathlib

/-!
Verification of the parallel chunked-upload writer
(registry/storage/driver/gcs/parallel.go).

The producer side of the writer (Write, Close, Size, Cancel, Commit) is a
sequential state machine; we embed it as pure functions on an explicit
state record.  The hand-off channel chunkCh is modelled by the trace
field `emitted`: sending a chunk on the channel appends it to the trace.
The done-channel close and the WaitGroup wait in Close are worker-side
synchronisation with no effect on the producer state, so they are no-ops
here.  Go slices of bytes are modelled as a backing array (a list, whose
length plays the role of the capacity, since every buffer in this code
has len == cap) plus an explicit slice length.  A Go runtime panic
(out-of-range slice) and a diverging loop are both modelled by `none`.
Remote GCS calls (object listing, deletion, the compose POST) and the
key mapping pathToKey live outside this file in the driver; they are
abstracted as an explicit record of operations passed to Cancel/Commit.
-/

namespace GCSParallel

abbrev Byte := Nat
abbrev Err := String

/-- A Go byte slice over a backing array that starts at index 0:
`len` is the slice length, `arr` the backing array (so the capacity is
`arr.length`). All slices taken in parallel.go are of the form buf[:k]. -/
structure ByteSlice where
  len : Nat
  arr : List Byte
deriving Repr, DecidableEq

/-- chunk from parallel.go: a start offset plus the byte slice to upload. -/
structure chunk where
  start : Nat
  buf : ByteSlice
deriving Repr, DecidableEq

/-- The bytes a chunk carries: the first `len` bytes of its backing array. -/
def chunk.payload (c : chunk) : List Byte := c.buf.arr.take c.buf.len

/-- Producer-side state of parallelWriter.  `buf = none` models a nil
buffer slice; `some b` models a pool buffer whose backing array is `b`
(len == cap == chunk capacity).  `emitted` is the trace of chunks sent
on chunkCh, in send order. -/
structure parallelWriter where
  path : String
  buf : Option (List Byte)
  offset : Nat
  startOffset : Nat
  totalSize : Nat
  closed : Bool
  cancelled : Bool
  emitted : List chunk
deriving Repr, DecidableEq

/-- NewParallelWriter, restricted to the producer state it builds: the
worker goroutines it spawns are modelled separately by `workerStep`. -/
def NewParallelWriter (path : String) : parallelWriter :=
  { path := path
    buf := none
    offset := 0
    startOffset := 0
    totalSize := 0
    closed := false
    cancelled := false
    emitted := [] }

/-- driver.pool.Get(): a buffer of the fixed chunk capacity C.  The pool
may hand back previously used content; parallel.go never reads a byte it
has not itself written (full chunks are fully overwritten, the flush
chunk is cut at the written length), so the stale content is modelled as
zero bytes without loss. -/
def poolGet (C : Nat) : List Byte := List.replicate C 0

/-- The body of one iteration of the for-loop in parallelWriter.Write
(reached with the closed check already passed and n < len p): take a
pool buffer if the current one is nil; copy min(cap - offset, len p - n)
bytes into the buffer at offset; if the buffer is now full, send it on
chunkCh (append to `emitted`) and set the buffer to nil, leaving
`offset` at the capacity.  Returns the new state and the number of
bytes consumed, or `none` for the slice-bound panic of buf[offset:]
(unreachable from well-formed states). -/
def writeStep (C : Nat) (pw : parallelWriter) (p : List Byte) (n : Nat) :
    Option (parallelWriter × Nat) :=
  let pw1 := match pw.buf with
    | none => { pw with buf := some (poolGet C), startOffset := pw.totalSize, offset := 0 }
    | some _ => pw
  let b := pw1.buf.getD []
  if pw1.offset ≤ b.length then
    let nn := min (b.length - pw1.offset) (p.length - n)
    let b2 := b.take pw1.offset ++ (p.drop n).take nn ++ b.drop (pw1.offset + nn)
    let pw2 := { pw1 with buf := some b2, offset := pw1.offset + nn,
                          totalSize := pw1.totalSize + nn }
    let pw3 := if pw2.offset = b2.length then
        { pw2 with emitted := pw2.emitted ++ [⟨pw2.startOffset, ⟨b2.length, b2⟩⟩],
                   buf := none }
      else pw2
    some (pw3, nn)
  else none

/-- One run of the for-loop in parallelWriter.Write, with `n` the bytes
consumed so far.  `fuel` bounds the number of iterations; `none` models
the loop diverging (it cannot, for a positive capacity and a well-formed
buffer, see WriteLoop_total) or a slice-bound panic.  Each iteration
checks the loop guard and the closed flag, then runs `writeStep`. -/
def parallelWriter.WriteLoop (C : Nat) :
    Nat → parallelWriter → List Byte → Nat → Option (parallelWriter × Nat × Option Err)
  | 0, _, _, _ => none
  | fuel + 1, pw, p, n =>
    if n < p.length then
      if pw.closed then some (pw, n, some "Wrote to closed writer")
      else
        match writeStep C pw p n with
        | none => none
        | some (pw3, nn) => parallelWriter.WriteLoop C fuel pw3 p (n + nn)
    else some (pw, n, none)

/-- parallelWriter.Write.  The loop consumes at least one byte per
iteration whenever the chunk capacity `C` is positive and the buffer is
well formed, so `p.length + 1` units of fuel always suffice. -/
def parallelWriter.Write (C : Nat) (pw : parallelWriter) (p : List Byte) :
    Option (parallelWriter × Nat × Option Err) :=
  parallelWriter.WriteLoop C (p.length + 1) pw p 0

/-- parallelWriter.Close.  Returns `none` when the Go code panics: the
flush slices pw.buf[:pw.offset], which is out of range when the buffer
is nil (capacity 0) while offset > 0, or when offset exceeds the buffer
capacity.  Closing doneCh and waiting on the WaitGroup do not change
producer state. -/
def parallelWriter.Close (pw : parallelWriter) : Option (parallelWriter × Option Err) :=
  if pw.closed then some (pw, none)
  else
    let pw1 := { pw with closed := true }
    if 0 < pw1.offset then
      match pw1.buf with
      | none => none
      | some b =>
        if pw1.offset ≤ b.length then
          some ({ pw1 with
                    emitted := pw1.emitted ++ [⟨pw1.startOffset, ⟨pw1.offset, b⟩⟩],
                    startOffset := pw1.totalSize
                    offset := 0
                    buf := none }, none)
        else none
    else some (pw1, none)

/-- parallelWriter.Size. -/
def parallelWriter.Size (pw : parallelWriter) : Nat := pw.totalSize

/-- A listed remote object: name plus generation, the two fields
parallel.go reads from storage.Object. -/
structure StorageObject where
  name : String
  generation : Int
deriving Repr, DecidableEq

/-- sourceObject from parallel.go (one entry of a compose request). -/
structure sourceObject where
  name : String
  generation : Int
deriving Repr, DecidableEq

/-- composeRequest from parallel.go. -/
structure composeRequest where
  kind : String
  sourceObjects : List sourceObject
deriving Repr, DecidableEq

/-- composeObjects from parallel.go: builds the compose request by
appending one sourceObject per listed object, in listing order. -/
def composeObjects (objects : List StorageObject) : composeRequest :=
  { kind := "storage#composeRequest"
    sourceObjects := objects.foldl (fun acc o => acc ++ [⟨o.name, o.generation⟩]) [] }

/-- The remote operations parallel.go calls through the driver and the
gcs package: the path-to-key mapping, object listing by key (the query
carries the key as its prefix field), object deletion by name, and the
compose POST (client.Post followed by CheckMediaResponse, collapsed to
the error it yields).  These live outside the sampled file and are kept
abstract. -/
structure StorageOps where
  pathToKey : String → String
  listObjects : String → Except Err (List StorageObject)
  deleteObject : String → Option Err
  composePost : String → composeRequest → Option Err

/-- Instrumented result of Cancel: the final state, the returned error,
whether the listing was performed, and the names whose deletion was
attempted, in order. -/
structure CancelResult where
  state : parallelWriter
  err : Option Err
  listed : Bool
  deletesAttempted : List String
deriving Repr, DecidableEq

/-- The body of the deletion loop in Cancel: append the error to the
collected list when the deletion failed, keep the list otherwise. -/
def appendErr {β : Type} (acc : List β) (r : Option β) : List β :=
  match r with
  | some e => acc ++ [e]
  | none => acc

/-- parallelWriter.Cancel.  First Close (propagating its panic as
`none`), then a no-op if already cancelled; otherwise list the objects
under the key of the path, try to delete every one (collecting errors
exactly as the Go loop appends them), and return the first collected
error, if any. -/
def parallelWriter.Cancel (ops : StorageOps) (pw : parallelWriter) : Option CancelResult :=
  match pw.Close with
  | none => none
  | some (pw1, _) =>
    if pw1.cancelled then some ⟨pw1, none, false, []⟩
    else
      let pw2 := { pw1 with cancelled := true }
      match ops.listObjects (ops.pathToKey pw2.path) with
      | Except.error e => some ⟨pw2, some e, true, []⟩
      | Except.ok objects =>
        let errors := objects.foldl
          (fun acc o => appendErr acc (ops.deleteObject o.name)) []
        some ⟨pw2, errors.head?, true, objects.map (fun o => o.name)⟩

/-- Instrumented result of Commit: the final state, the returned error,
and the compose requests issued (destination key paired with request),
in order. -/
structure CommitResult where
  state : parallelWriter
  err : Option Err
  composeIssued : List (String × composeRequest)
deriving Repr, DecidableEq

/-- parallelWriter.Commit.  First Close (propagating its panic as
`none`), then list the objects under the key of the path; fail when the
listing is empty, succeed without composing when it has exactly one
entry, and otherwise issue a single compose request built by
composeObjects.  Marshalling the request to JSON cannot fail for this
record type, so the only POST outcome is the composePost error. -/
def parallelWriter.Commit (ops : StorageOps) (pw : parallelWriter) : Option CommitResult :=
  match pw.Close with
  | none => none
  | some (pw1, _) =>
    let pathKey := ops.pathToKey pw1.path
    match ops.listObjects pathKey with
    | Except.error e => some ⟨pw1, some e, []⟩
    | Except.ok objects =>
      if objects.length = 0 then
        some ⟨pw1, some ("No objects found for " ++ pw1.path), []⟩
      else if objects.length = 1 then
        some ⟨pw1, none, []⟩
      else
        let req := composeObjects objects
        some ⟨pw1, ops.composePost pathKey req, [(pathKey, req)]⟩

/-- Outcome of one worker-loop iteration on a single chunk, as observed
through the external calls it makes. -/
structure WorkerEnv where
  target : Option Nat
  targetErr : Option Err
  copyErr : Option Err
  commitErr : Option Err
deriving Repr, DecidableEq

/-- Instrumented trace of one worker-loop iteration: how many times
Cancel was triggered, the target value io.Copy was invoked with (if
invoked), the target value Commit was invoked with (if invoked), the
buffers handed to pool.Put, and whether the iteration panicked. -/
structure WorkerTrace where
  cancels : Nat
  copyCalledOn : Option (Option Nat)
  commitCalledOn : Option (Option Nat)
  puts : List (List Byte)
  panicked : Bool
deriving Repr, DecidableEq

/-- One iteration of the worker goroutine body spawned by
NewParallelWriter, processing the chunk received from chunkCh.
writerFunc yields `env.target` (a nil FileWriter is `none`) and
`env.targetErr`; a factory error triggers Cancel but does not skip the
rest of the iteration.  io.Copy is then invoked with that target: with
a nil target it returns without writing only when the chunk payload is
empty (and the following Commit call then dereferences nil and
panics); on a non-empty payload the first Write on the nil target
panics, before Commit and before pool.Put.  With a valid target, copy
and commit errors each trigger Cancel, and the backing array of the
chunk buffer, re-extended to its capacity (c.buf[:cap(c.buf)]), is
put back into the pool. -/
def workerStep (env : WorkerEnv) (c : chunk) : WorkerTrace :=
  let cancels0 := if env.targetErr.isSome then 1 else 0
  match env.target with
  | none =>
    if c.payload.isEmpty then
      { cancels := cancels0, copyCalledOn := some none, commitCalledOn := some none,
        puts := [], panicked := true }
    else
      { cancels := cancels0, copyCalledOn := some none, commitCalledOn := none,
        puts := [], panicked := true }
  | some t =>
    let cancels1 := cancels0 + (if env.copyErr.isSome then 1 else 0)
    let cancels2 := cancels1 + (if env.commitErr.isSome then 1 else 0)
    { cancels := cancels2, copyCalledOn := some (some t), commitCalledOn := some (some t),
      puts := [c.buf.arr], panicked := false }

/-- Well-formedness of the in-progress buffer for capacity C: a non-nil
buffer has backing length C and a fill offset strictly below C.  This
holds in every state reachable from NewParallelWriter through Write and
Close (a full buffer is sent and nilled immediately). -/
def BufOk (C : Nat) (pw : parallelWriter) : Prop :=
  ∀ b, pw.buf = some b → b.length = C ∧ pw.offset < C

/-- Driving the writer: a trace of external calls made by the caller. -/
inductive WOp where
  | write (p : List Byte)
  | close
deriving Repr, DecidableEq

/-- Run a trace of Write and Close calls, accumulating the byte counts
the Write calls returned (the bytes accepted).  `none` models a panic
or divergence somewhere in the trace. -/
def runOps (C : Nat) : parallelWriter → Nat → List WOp → Option (parallelWriter × Nat)
  | pw, acc, [] => some (pw, acc)
  | pw, acc, WOp.write p :: ops =>
    match parallelWriter.Write C pw p with
    | some (pw', n, _) => runOps C pw' (acc + n) ops
    | none => none
  | pw, acc, WOp.close :: ops =>
    match pw.Close with
    | some (pw', _) => runOps C pw' acc ops
    | none => none

/-- Run a sequence of Write calls that are all expected to succeed
without error, as in the normal upload flow. -/
def runWrites (C : Nat) : parallelWriter → List (List Byte) → Option parallelWriter
  | pw, [] => some pw
  | pw, p :: ps =>
    match parallelWriter.Write C pw p with
    | some (pw', _, none) => runWrites C pw' ps
    | _ => none

/-! Helper lemmas. -/

/-- Folding snoc of a mapped element over a list appends the mapped list. -/
theorem foldl_snoc_eq_append_map {α β : Type} (f : α → β) :
    ∀ (l : List α) (acc : List β),
      l.foldl (fun a o => a ++ [f o]) acc = acc ++ l.map f := by
  intro l
  induction l with
  | nil => intro acc; simp
  | cons x xs ih => intro acc; simp [ih]

/-- Folding the error-collecting loop body over a list appends exactly the
errors the function yields, in order. -/
theorem foldl_collect_eq_filterMap {α β : Type} (f : α → Option β) :
    ∀ (l : List α) (acc : List β),
      l.foldl (fun a o => appendErr a (f o)) acc = acc ++ l.filterMap f := by
  intro l
  induction l with
  | nil => intro acc; simp
  | cons x xs ih =>
    intro acc
    rw [List.foldl_cons, ih, List.filterMap_cons]
    cases hfx : f x with
    | none => simp [appendErr, hfx]
    | some e => simp [appendErr, hfx]

/-- Close on an already-closed writer is the identity returning nil. -/
theorem Close_noop_of_closed (pw : parallelWriter) (h : pw.closed = true) :
    pw.Close = some (pw, none) := by
  unfold parallelWriter.Close
  rw [if_pos h]

/-- Whenever Close returns (rather than panicking), the resulting state is
closed, the byte total is unchanged, and the path is unchanged. -/
theorem Close_shape (pw pw' : parallelWriter) (v : Option Err)
    (h : pw.Close = some (pw', v)) :
    pw'.closed = true ∧ pw'.totalSize = pw.totalSize ∧ pw'.path = pw.path := by
  unfold parallelWriter.Close at h
  dsimp only at h
  split at h
  case isTrue hc =>
    rw [Option.some.injEq, Prod.mk.injEq] at h
    rw [← h.1]
    exact ⟨hc, rfl, rfl⟩
  case isFalse hc =>
    split at h
    case isTrue hoff =>
      split at h
      case h_1 => exact Option.noConfusion h
      case h_2 b hb =>
        split at h
        case isTrue hle =>
          rw [Option.some.injEq, Prod.mk.injEq] at h
          rw [← h.1]
          exact ⟨rfl, rfl, rfl⟩
        case isFalse hle => exact Option.noConfusion h
    case isFalse hoff =>
      rw [Option.some.injEq, Prod.mk.injEq] at h
      rw [← h.1]
      exact ⟨rfl, rfl, rfl⟩

/-- One loop iteration from a well-formed open state consumes at least
one byte (for positive capacity), stays within the input, preserves the
closed flag and buffer well-formedness, and grows the byte total by
exactly the bytes consumed. -/
theorem writeStep_spec (C : Nat) (hC : 0 < C) (pw : parallelWriter) (p : List Byte) (n : Nat)
    (hn : n < p.length) (hbuf : BufOk C pw) :
    ∃ pw3 nn, writeStep C pw p n = some (pw3, nn) ∧
      1 ≤ nn ∧ n + nn ≤ p.length ∧
      pw3.closed = pw.closed ∧ BufOk C pw3 ∧
      pw3.totalSize = pw.totalSize + nn := by
  unfold writeStep
  cases hb : pw.buf with
  | none =>
    dsimp only
    rw [if_pos (Nat.zero_le _)]
    simp only [Option.getD_some, Nat.sub_zero, Nat.zero_add, List.take_zero, List.nil_append]
    have hpg : (poolGet C).length = C := by simp [poolGet]
    rw [hpg]
    have hNN2 : C ⊓ (p.length - n) ≤ p.length - n := Nat.min_le_right _ _
    have hNN1 : C ⊓ (p.length - n) ≤ C := Nat.min_le_left _ _
    have hNNpos : 1 ≤ C ⊓ (p.length - n) := Nat.le_min.mpr ⟨hC, by omega⟩
    have hlen : (List.take (C ⊓ (p.length - n)) (List.drop n p) ++
        List.drop (C ⊓ (p.length - n)) (poolGet C)).length = C := by
      simp [List.length_append, List.length_take, List.length_drop, hpg]
    rw [hlen]
    by_cases hfull : C ⊓ (p.length - n) = C
    · rw [if_pos hfull]
      refine ⟨_, _, rfl, hNNpos, by omega, rfl, ?_, rfl⟩
      intro b hb2
      exact Option.noConfusion hb2
    · rw [if_neg hfull]
      refine ⟨_, _, rfl, hNNpos, by omega, rfl, ?_, rfl⟩
      intro b hb2
      rw [Option.some.injEq] at hb2
      constructor
      · rw [← hb2]; exact hlen
      · dsimp only
        omega
  | some b0 =>
    dsimp only
    rw [hb]
    simp only [Option.getD_some]
    obtain ⟨hb0, hoff⟩ := hbuf b0 hb
    rw [if_pos (by omega : pw.offset ≤ b0.length)]
    have hNN2 : (b0.length - pw.offset) ⊓ (p.length - n) ≤ p.length - n := Nat.min_le_right _ _
    have hNN1 : (b0.length - pw.offset) ⊓ (p.length - n) ≤ b0.length - pw.offset :=
      Nat.min_le_left _ _
    have hNNpos : 1 ≤ (b0.length - pw.offset) ⊓ (p.length - n) :=
      Nat.le_min.mpr ⟨by omega, by omega⟩
    have hlen : (List.take pw.offset b0 ++
        List.take ((b0.length - pw.offset) ⊓ (p.length - n)) (List.drop n p) ++
        List.drop (pw.offset + (b0.length - pw.offset) ⊓ (p.length - n)) b0).length
          = b0.length := by
      simp [List.length_append, List.length_take, List.length_drop]
      omega
    rw [hlen]
    by_cases hfull : pw.offset + (b0.length - pw.offset) ⊓ (p.length - n) = b0.length
    · rw [if_pos hfull]
      refine ⟨_, _, rfl, hNNpos, by omega, rfl, ?_, rfl⟩
      intro b hb2
      exact Option.noConfusion hb2
    · rw [if_neg hfull]
      refine ⟨_, _, rfl, hNNpos, by omega, rfl, ?_, rfl⟩
      intro b hb2
      rw [Option.some.injEq] at hb2
      constructor
      · rw [← hb2]; exact hlen.trans hb0
      · dsimp only
        omega

/-- Whatever state one loop iteration runs from, the byte total grows by
exactly the bytes the iteration consumed. -/
theorem writeStep_totalSize (C : Nat) (pw : parallelWriter) (p : List Byte) (n : Nat)
    (pw3 : parallelWriter) (nn : Nat) (h : writeStep C pw p n = some (pw3, nn)) :
    pw3.totalSize = pw.totalSize + nn := by
  unfold writeStep at h
  cases hb : pw.buf with
  | none =>
    rw [hb] at h
    dsimp only at h
    split at h
    · split at h
      · rw [Option.some.injEq, Prod.mk.injEq] at h
        obtain ⟨h1, h2⟩ := h
        rw [← h1, ← h2]
      · rw [Option.some.injEq, Prod.mk.injEq] at h
        obtain ⟨h1, h2⟩ := h
        rw [← h1, ← h2]
    · exact Option.noConfusion h
  | some b0 =>
    rw [hb] at h
    dsimp only at h
    split at h
    · split at h
      · rw [Option.some.injEq, Prod.mk.injEq] at h
        obtain ⟨h1, h2⟩ := h
        rw [← h1, ← h2]
      · rw [Option.some.injEq, Prod.mk.injEq] at h
        obtain ⟨h1, h2⟩ := h
        rw [← h1, ← h2]
    · exact Option.noConfusion h

/-- Termination and success of the write loop: from a well-formed open
state, with chunk capacity positive and fuel exceeding the remaining
bytes, the loop consumes the whole input and returns no error, ending in
a well-formed open state. -/
theorem WriteLoop_total (C : Nat) (hC : 0 < C) :
    ∀ (fuel : Nat) (p : List Byte) (n : Nat) (pw : parallelWriter),
      pw.closed = false → BufOk C pw → n ≤ p.length → p.length - n < fuel →
      ∃ pw', parallelWriter.WriteLoop C fuel pw p n = some (pw', p.length, none) ∧
        pw'.closed = false ∧ BufOk C pw' := by
  intro fuel
  induction fuel with
  | zero => intro p n pw _ _ h3 h4; omega
  | succ f ih =>
    intro p n pw hcl hbuf h3 h4
    by_cases hn : n < p.length
    · obtain ⟨pw3, nn, hstep, hnn1, hnn2, hcl3, hbuf3, _⟩ :=
        writeStep_spec C hC pw p n hn hbuf
      have hune : parallelWriter.WriteLoop C (f + 1) pw p n
          = parallelWriter.WriteLoop C f pw3 p (n + nn) := by
        conv_lhs => rw [parallelWriter.WriteLoop]
        rw [if_pos hn, if_neg (by simp [hcl]), hstep]
      rw [hune]
      obtain ⟨pw', hrec, hc, hb⟩ :=
        ih p (n + nn) pw3 (by rw [hcl3, hcl]) hbuf3 hnn2 (by omega)
      exact ⟨pw', hrec, hc, hb⟩
    · have hnp : n = p.length := by omega
      subst hnp
      refine ⟨pw, ?_, hcl, hbuf⟩
      conv_lhs => rw [parallelWriter.WriteLoop]
      rw [if_neg hn]

/-- Whatever state and fuel the write loop runs with, when it returns,
the byte total has grown by exactly the bytes it reported consumed. -/
theorem WriteLoop_size (C : Nat) :
    ∀ (fuel : Nat) (p : List Byte) (n : Nat) (pw pw' : parallelWriter) (n' : Nat)
      (e : Option Err),
      parallelWriter.WriteLoop C fuel pw p n = some (pw', n', e) →
      pw'.totalSize + n = pw.totalSize + n' := by
  intro fuel
  induction fuel with
  | zero =>
    intro p n pw pw' n' e h
    simp [parallelWriter.WriteLoop] at h
  | succ f ih =>
    intro p n pw pw' n' e h
    rw [parallelWriter.WriteLoop] at h
    by_cases hn : n < p.length
    · rw [if_pos hn] at h
      by_cases hcl : pw.closed = true
      · rw [if_pos hcl] at h
        rw [Option.some.injEq, Prod.mk.injEq] at h
        obtain ⟨h1, h2⟩ := h
        rw [Prod.mk.injEq] at h2
        rw [← h1, ← h2.1]
      · rw [if_neg hcl] at h
        cases hs : writeStep C pw p n with
        | none =>
          rw [hs] at h
          exact Option.noConfusion h
        | some r =>
          obtain ⟨pw3, nn⟩ := r
          rw [hs] at h
          have h' : parallelWriter.WriteLoop C f pw3 p (n + nn) = some (pw', n', e) := h
          have hts := writeStep_totalSize C pw p n pw3 nn hs
          have hrec := ih p (n + nn) pw3 pw' n' e h'
          omega
    · rw [if_neg hn] at h
      rw [Option.some.injEq, Prod.mk.injEq] at h
      obtain ⟨h1, h2⟩ := h
      rw [Prod.mk.injEq] at h2
      rw [← h1, ← h2.1]

/-- Write grows the byte total by exactly the byte count it returns. -/
theorem Write_size (C : Nat) (pw : parallelWriter) (p : List Byte)
    (pw' : parallelWriter) (nc : Nat) (e : Option Err)
    (h : parallelWriter.Write C pw p = some (pw', nc, e)) :
    pw'.totalSize = pw.totalSize + nc := by
  have := WriteLoop_size C (p.length + 1) p 0 pw pw' nc e h
  omega

/-- Over a trace of Write and Close calls, the byte total moves by
exactly the accepted byte counts accumulated along the trace. -/
theorem runOps_size (C : Nat) :
    ∀ (ops : List WOp) (pw0 : parallelWriter) (acc0 : Nat) (pw : parallelWriter) (acc : Nat),
      runOps C pw0 acc0 ops = some (pw, acc) →
      pw.totalSize + acc0 = pw0.totalSize + acc := by
  intro ops
  induction ops with
  | nil =>
    intro pw0 acc0 pw acc h
    rw [runOps] at h
    rw [Option.some.injEq, Prod.mk.injEq] at h
    rw [← h.1, ← h.2]
  | cons op rest ih =>
    intro pw0 acc0 pw acc h
    cases op with
    | write p =>
      rw [runOps] at h
      cases hw : parallelWriter.Write C pw0 p with
      | none => rw [hw] at h; exact Option.noConfusion h
      | some r =>
        obtain ⟨pw1, nc, e⟩ := r
        rw [hw] at h
        have h' : runOps C pw1 (acc0 + nc) rest = some (pw, acc) := h
        have h1 := ih pw1 (acc0 + nc) pw acc h'
        have h2 := Write_size C pw0 p pw1 nc e hw
        omega
    | close =>
      rw [runOps] at h
      cases hc : pw0.Close with
      | none => rw [hc] at h; exact Option.noConfusion h
      | some r =>
        obtain ⟨pw1, e⟩ := r
        rw [hc] at h
        have h' : runOps C pw1 acc0 rest = some (pw, acc) := h
        have h1 := ih pw1 acc0 pw acc h'
        have h2 := (Close_shape pw0 pw1 e hc).2.1
        omega

/-! Claim theorems. -/

/-- C4: Close is idempotent: a second Close on an already-closed writer
returns success (nil) immediately and leaves the state unchanged, so no
further chunk is handed to the worker queue and nothing is uploaded
twice. -/
theorem Close_idempotent (pw : parallelWriter) (h : pw.closed = true) :
    pw.Close = some (pw, none) :=
  Close_noop_of_closed pw h

/-- Witness for Close_idempotent at a concrete closed writer. -/
theorem Close_idempotent_witness :
    ({ NewParallelWriter "p" with closed := true } : parallelWriter).Close
      = some ({ NewParallelWriter "p" with closed := true }, none) :=
  Close_idempotent { NewParallelWriter "p" with closed := true } rfl

/-- C5: Commit first performs Close (the state it proceeds with is
closed); it then lists the objects under the key of the path: an empty
listing yields the "No objects found" error for the path with no compose
request issued, and a singleton listing yields success with no compose
request issued. -/
theorem Commit_closes_then_empty_errors_single_succeeds
    (ops : StorageOps) (pw pw' : parallelWriter) (v : Option Err)
    (h : pw.Close = some (pw', v)) :
    pw'.closed = true ∧
    (ops.listObjects (ops.pathToKey pw'.path) = Except.ok [] →
      parallelWriter.Commit ops pw
        = some ⟨pw', some ("No objects found for " ++ pw'.path), []⟩) ∧
    (∀ o, ops.listObjects (ops.pathToKey pw'.path) = Except.ok [o] →
      parallelWriter.Commit ops pw = some ⟨pw', none, []⟩) := by
  refine ⟨(Close_shape pw pw' v h).1, ?_, ?_⟩
  · intro hl
    unfold parallelWriter.Commit
    rw [h]
    simp [hl]
  · intro o hl
    unfold parallelWriter.Commit
    rw [h]
    simp [hl]

/-- A concrete operations record whose listing is always empty. -/
def opsEmptyListing : StorageOps :=
  { pathToKey := fun k => k
    listObjects := fun _ => Except.ok []
    deleteObject := fun _ => none
    composePost := fun _ _ => none }

/-- Witness for Commit_closes_then_empty_errors_single_succeeds on a
fresh writer and an empty listing. -/
theorem Commit_empty_single_witness :
    ({ NewParallelWriter "p" with closed := true } : parallelWriter).closed = true ∧
    (opsEmptyListing.listObjects (opsEmptyListing.pathToKey "p") = Except.ok [] →
      parallelWriter.Commit opsEmptyListing (NewParallelWriter "p")
        = some ⟨{ NewParallelWriter "p" with closed := true },
                some ("No objects found for " ++ "p"), []⟩) ∧
    (∀ o, opsEmptyListing.listObjects (opsEmptyListing.pathToKey "p") = Except.ok [o] →
      parallelWriter.Commit opsEmptyListing (NewParallelWriter "p")
        = some ⟨{ NewParallelWriter "p" with closed := true }, none, []⟩) :=
  Commit_closes_then_empty_errors_single_succeeds opsEmptyListing
    (NewParallelWriter "p") { NewParallelWriter "p" with closed := true } none rfl

/-- C6: when the listing holds more than one object, Commit issues
exactly one compose request, addressed to the key of the path, whose
source-object list is precisely the name and generation of every listed
object in listing order. -/
theorem Commit_composes_all_listed_objects
    (ops : StorageOps) (pw pw' : parallelWriter) (v : Option Err)
    (objs : List StorageObject)
    (h : pw.Close = some (pw', v))
    (hl : ops.listObjects (ops.pathToKey pw'.path) = Except.ok objs)
    (h2 : 2 ≤ objs.length) :
    parallelWriter.Commit ops pw
      = some ⟨pw', ops.composePost (ops.pathToKey pw'.path) (composeObjects objs),
              [(ops.pathToKey pw'.path, composeObjects objs)]⟩ ∧
    (composeObjects objs).sourceObjects
      = objs.map (fun o => ⟨o.name, o.generation⟩) ∧
    (composeObjects objs).kind = "storage#composeRequest" := by
  refine ⟨?_, ?_, rfl⟩
  · unfold parallelWriter.Commit
    rw [h]
    have h0 : ¬ objs.length = 0 := by omega
    have h1 : ¬ objs.length = 1 := by omega
    simp [hl, h0, h1]
  · unfold composeObjects
    rw [foldl_snoc_eq_append_map]
    simp

/-- A concrete operations record listing two objects. -/
def opsTwoObjects : StorageOps :=
  { pathToKey := fun k => k
    listObjects := fun _ => Except.ok [⟨"a", 1⟩, ⟨"b", 2⟩]
    deleteObject := fun _ => none
    composePost := fun _ _ => none }

/-- Witness for Commit_composes_all_listed_objects on a two-object
listing. -/
theorem Commit_composes_witness :
    parallelWriter.Commit opsTwoObjects (NewParallelWriter "p")
      = some ⟨{ NewParallelWriter "p" with closed := true },
              opsTwoObjects.composePost (opsTwoObjects.pathToKey "p")
                (composeObjects [⟨"a", 1⟩, ⟨"b", 2⟩]),
              [(opsTwoObjects.pathToKey "p", composeObjects [⟨"a", 1⟩, ⟨"b", 2⟩])]⟩ ∧
    (composeObjects [⟨"a", 1⟩, ⟨"b", 2⟩]).sourceObjects
      = ([⟨"a", 1⟩, ⟨"b", 2⟩] : List StorageObject).map (fun o => ⟨o.name, o.generation⟩) ∧
    (composeObjects [⟨"a", 1⟩, ⟨"b", 2⟩]).kind = "storage#composeRequest" :=
  Commit_composes_all_listed_objects opsTwoObjects (NewParallelWriter "p")
    { NewParallelWriter "p" with closed := true } none [⟨"a", 1⟩, ⟨"b", 2⟩]
    rfl rfl (by decide)

/-- C7: Cancel (from a not-yet-cancelled writer) lists the objects under
the key of the path and attempts to delete every one of them in order; a
failing deletion does not stop the remaining deletions.  It returns the
first deletion error collected, and nil when every deletion succeeds. -/
theorem Cancel_attempts_all_deletes_returns_first_error
    (ops : StorageOps) (pw pw' : parallelWriter) (v : Option Err)
    (objs : List StorageObject)
    (h : pw.Close = some (pw', v))
    (hnc : pw'.cancelled = false)
    (hl : ops.listObjects (ops.pathToKey pw'.path) = Except.ok objs) :
    parallelWriter.Cancel ops pw
      = some ⟨{ pw' with cancelled := true },
              (objs.filterMap (fun o => ops.deleteObject o.name)).head?,
              true,
              objs.map (fun o => o.name)⟩ ∧
    ((∀ o ∈ objs, ops.deleteObject o.name = none) →
      (objs.filterMap (fun o => ops.deleteObject o.name)).head? = none) := by
  constructor
  · unfold parallelWriter.Cancel
    rw [h]
    simp [hnc, hl, foldl_collect_eq_filterMap]
  · intro hall
    have hnil : objs.filterMap (fun o => ops.deleteObject o.name) = [] := by
      rw [List.filterMap_eq_nil_iff]
      exact hall
    rw [hnil]
    rfl

/-- A concrete operations record with three objects where deleting the
second fails. -/
def opsDeleteBFails : StorageOps :=
  { pathToKey := fun k => k
    listObjects := fun _ => Except.ok [⟨"a", 1⟩, ⟨"b", 2⟩, ⟨"c", 3⟩]
    deleteObject := fun n => if n = "b" then some "delete b failed" else none
    composePost := fun _ _ => none }

/-- Witness for Cancel_attempts_all_deletes_returns_first_error: all
three deletions are attempted and the single failure is returned. -/
theorem Cancel_deletes_witness :
    parallelWriter.Cancel opsDeleteBFails (NewParallelWriter "p")
      = some ⟨{ { NewParallelWriter "p" with closed := true } with cancelled := true },
              (([⟨"a", 1⟩, ⟨"b", 2⟩, ⟨"c", 3⟩] : List StorageObject).filterMap
                (fun o => opsDeleteBFails.deleteObject o.name)).head?,
              true,
              ([⟨"a", 1⟩, ⟨"b", 2⟩, ⟨"c", 3⟩] : List StorageObject).map (fun o => o.name)⟩ ∧
    ((∀ o ∈ ([⟨"a", 1⟩, ⟨"b", 2⟩, ⟨"c", 3⟩] : List StorageObject),
        opsDeleteBFails.deleteObject o.name = none) →
      (([⟨"a", 1⟩, ⟨"b", 2⟩, ⟨"c", 3⟩] : List StorageObject).filterMap
        (fun o => opsDeleteBFails.deleteObject o.name)).head? = none) :=
  Cancel_attempts_all_deletes_returns_first_error opsDeleteBFails
    (NewParallelWriter "p") { NewParallelWriter "p" with closed := true } none
    [⟨"a", 1⟩, ⟨"b", 2⟩, ⟨"c", 3⟩] rfl rfl rfl

/-- C8: every Cancel call first performs Close (any state it returns is
closed), and a second Cancel on an already-cancelled (hence closed)
writer returns success without listing and without attempting any
deletion, leaving the state unchanged. -/
theorem Cancel_closes_and_second_cancel_noop
    (ops : StorageOps) (pw : parallelWriter)
    (h1 : pw.cancelled = true) (h2 : pw.closed = true) :
    parallelWriter.Cancel ops pw = some ⟨pw, none, false, []⟩ ∧
    (∀ qw r, parallelWriter.Cancel ops qw = some r → r.state.closed = true) := by
  constructor
  · unfold parallelWriter.Cancel
    rw [Close_noop_of_closed pw h2]
    simp [h1]
  · intro qw r hr
    unfold parallelWriter.Cancel at hr
    cases hq : qw.Close with
    | none => rw [hq] at hr; exact Option.noConfusion hr
    | some res =>
      obtain ⟨qw1, v⟩ := res
      rw [hq] at hr
      dsimp only at hr
      have hcl : qw1.closed = true := (Close_shape qw qw1 v hq).1
      by_cases hcc : qw1.cancelled = true
      · rw [if_pos hcc] at hr
        rw [Option.some.injEq] at hr
        rw [← hr]
        exact hcl
      · rw [if_neg hcc] at hr
        cases hlist : ops.listObjects (ops.pathToKey qw1.path) with
        | error e =>
          rw [hlist] at hr
          dsimp only at hr
          rw [Option.some.injEq] at hr
          rw [← hr]
          exact hcl
        | ok objects =>
          rw [hlist] at hr
          dsimp only at hr
          rw [Option.some.injEq] at hr
          rw [← hr]
          exact hcl

/-- Witness for Cancel_closes_and_second_cancel_noop at a concrete
already-cancelled writer. -/
theorem Cancel_second_noop_witness :
    parallelWriter.Cancel opsDeleteBFails
        { NewParallelWriter "p" with closed := true, cancelled := true }
      = some ⟨{ NewParallelWriter "p" with closed := true, cancelled := true },
              none, false, []⟩ ∧
    (∀ qw r, parallelWriter.Cancel opsDeleteBFails qw = some r →
      r.state.closed = true) :=
  Cancel_closes_and_second_cancel_noop opsDeleteBFails
    { NewParallelWriter "p" with closed := true, cancelled := true } rfl rfl

/-- C1 (code bug): a write of exactly one chunk capacity (C = 4, input
"ABCD") correctly hands off the single full chunk, but leaves offset at
4 with a nil buffer; the following Close then takes the flush branch
(offset > 0) and slices the nil buffer out of range — a runtime panic,
modelled as `none` — instead of completing with the chunks being
exactly the split of the input. -/
theorem close_panics_after_exact_multiple_write :
    ∃ pw : parallelWriter,
      parallelWriter.Write 4 (NewParallelWriter "p") [65, 66, 67, 68]
        = some (pw, 4, none) ∧
      pw.emitted = [⟨0, ⟨4, [65, 66, 67, 68]⟩⟩] ∧
      pw.buf = none ∧ pw.offset = 4 ∧
      pw.Close = none :=
  ⟨{ path := "p", buf := none, offset := 4, startOffset := 0, totalSize := 4,
     closed := false, cancelled := false,
     emitted := [⟨0, ⟨4, [65, 66, 67, 68]⟩⟩] },
   rfl, rfl, rfl, rfl, rfl⟩

/-- C2 counterexample: Write called after Close with an empty input
slice returns (0, nil) — no "writer closed" error — because the loop
body, where the closed check lives, is never entered. -/
theorem write_after_close_empty_input_returns_no_error :
    parallelWriter.Write 4 ({ NewParallelWriter "p" with closed := true }) []
      = some ({ NewParallelWriter "p" with closed := true }, 0, none) := rfl

/-- C9 counterexample: when the per-offset target factory fails and
returns a nil target along with its error, the worker panics inside
io.Copy (before reaching pool.Put), so the chunk buffer is never
returned to the pool — refuting the unconditional exactly-once return. -/
theorem worker_nil_target_buffer_not_returned :
    workerStep ⟨none, some "factory failed", none, none⟩ ⟨0, ⟨4, [65, 66, 67, 68]⟩⟩
      = ⟨1, some none, none, [], true⟩ := rfl

/-- C9 (amended): for every chunk whose target factory call yields a
usable (non-nil) target, the worker puts the chunk buffer back into the
pool exactly once after the attempt, regardless of factory, copy or
commit errors, and the buffer it puts is the backing array re-extended
to its full capacity. -/
theorem worker_returns_buffer_once_full_capacity
    (env : WorkerEnv) (c : chunk) (t : Nat) (h : env.target = some t) :
    (workerStep env c).puts = [c.buf.arr] ∧
    (workerStep env c).panicked = false ∧
    ∀ b ∈ (workerStep env c).puts, b.length = c.buf.arr.length := by
  unfold workerStep
  rw [h]
  simp

/-- Witness for worker_returns_buffer_once_full_capacity: every step
reports an error, yet the buffer is put back exactly once at full
capacity. -/
theorem worker_returns_buffer_once_witness :
    (workerStep ⟨some 7, some "e1", some "e2", some "e3"⟩ ⟨8, ⟨2, [73, 74, 0, 0]⟩⟩).puts
        = [[73, 74, 0, 0]] ∧
    (workerStep ⟨some 7, some "e1", some "e2", some "e3"⟩ ⟨8, ⟨2, [73, 74, 0, 0]⟩⟩).panicked
        = false ∧
    ∀ b ∈ (workerStep ⟨some 7, some "e1", some "e2", some "e3"⟩
            ⟨8, ⟨2, [73, 74, 0, 0]⟩⟩).puts,
      b.length = ([73, 74, 0, 0] : List Byte).length :=
  worker_returns_buffer_once_full_capacity
    ⟨some 7, some "e1", some "e2", some "e3"⟩ ⟨8, ⟨2, [73, 74, 0, 0]⟩⟩ 7 rfl

/-- C10: when the target factory returns an error for a chunk, the
worker triggers Cancel but does not stop processing the chunk: io.Copy
is still invoked with whatever target value came back with the error —
including nil — and Commit is likewise invoked with it whenever io.Copy
returns control (always for a non-nil target, and for a nil target when
the payload is empty).  The witness exhibits the nil-target run in which
both the streaming and the commit step are reached with the invalid
target. -/
theorem worker_continues_after_factory_error
    (env : WorkerEnv) (c : chunk) (e : Err) (h : env.targetErr = some e) :
    1 ≤ (workerStep env c).cancels ∧
    (workerStep env c).copyCalledOn = some env.target ∧
    (∀ t, env.target = some t →
      (workerStep env c).commitCalledOn = some (some t)) ∧
    (env.target = none → c.payload = [] →
      (workerStep env c).commitCalledOn = some none) := by
  cases ht : env.target with
  | none =>
    refine ⟨?_, ?_, ?_, ?_⟩
    · by_cases hp : c.payload.isEmpty <;> simp [workerStep, h, ht, hp]
    · by_cases hp : c.payload.isEmpty <;> simp [workerStep, h, ht, hp]
    · intro t htt
      exact Option.noConfusion htt
    · intro _ hpl
      have hp : c.payload.isEmpty = true := by simp [hpl]
      simp [workerStep, h, ht, hp]
  | some t' =>
    refine ⟨?_, ?_, ?_, ?_⟩
    · simp [workerStep, h, ht]
      omega
    · simp [workerStep, ht]
    · intro t htt
      rw [Option.some.injEq] at htt
      subst htt
      simp [workerStep, ht]
    · intro hno
      exact Option.noConfusion hno

/-- Witness for worker_continues_after_factory_error: a failed factory
call returning a nil target, on an empty-payload chunk, still reaches
both io.Copy and Commit with the nil target. -/
theorem worker_continues_after_factory_error_witness :
    1 ≤ (workerStep ⟨none, some "boom", none, none⟩ ⟨0, ⟨0, []⟩⟩).cancels ∧
    (workerStep ⟨none, some "boom", none, none⟩ ⟨0, ⟨0, []⟩⟩).copyCalledOn
        = some (WorkerEnv.target ⟨none, some "boom", none, none⟩) ∧
    (∀ t, WorkerEnv.target ⟨none, some "boom", none, none⟩ = some t →
      (workerStep ⟨none, some "boom", none, none⟩ ⟨0, ⟨0, []⟩⟩).commitCalledOn
        = some (some t)) ∧
    (WorkerEnv.target ⟨none, some "boom", none, none⟩ = none →
      chunk.payload ⟨0, ⟨0, []⟩⟩ = [] →
      (workerStep ⟨none, some "boom", none, none⟩ ⟨0, ⟨0, []⟩⟩).commitCalledOn
        = some none) :=
  worker_continues_after_factory_error ⟨none, some "boom", none, none⟩ ⟨0, ⟨0, []⟩⟩
    "boom" rfl

/-- C2 (amended): for every input slice, Write on a well-formed writer
that has not been closed consumes all of the input and returns
(len(data), nil); for every NON-EMPTY input slice, Write called after
Close returns the "writer closed" error having consumed nothing (an
empty slice written after Close returns (0, nil), see the
counterexample). -/
theorem Write_consumes_all_open_and_errors_nonempty_closed
    (C : Nat) (pw qw : parallelWriter) (p q : List Byte)
    (hC : 0 < C) (hcl : pw.closed = false) (hbuf : BufOk C pw)
    (hq : qw.closed = true) (hqne : q ≠ []) :
    (∃ pw', parallelWriter.Write C pw p = some (pw', p.length, none)) ∧
    parallelWriter.Write C qw q = some (qw, 0, some "Wrote to closed writer") := by
  constructor
  · obtain ⟨pw', hres, _, _⟩ :=
      WriteLoop_total C hC (p.length + 1) p 0 pw hcl hbuf (Nat.zero_le _) (by omega)
    exact ⟨pw', hres⟩
  · have h0 : 0 < q.length := List.length_pos.mpr hqne
    unfold parallelWriter.Write
    rw [parallelWriter.WriteLoop]
    rw [if_pos h0, if_pos hq]

/-- Witness for Write_consumes_all_open_and_errors_nonempty_closed on a
fresh writer with a 3-byte input and a closed writer with a 1-byte
input. -/
theorem Write_consumes_all_witness :
    (∃ pw', parallelWriter.Write 4 (NewParallelWriter "p") [1, 2, 3]
        = some (pw', 3, none)) ∧
    parallelWriter.Write 4 { NewParallelWriter "p" with closed := true } [7]
      = some ({ NewParallelWriter "p" with closed := true }, 0,
              some "Wrote to closed writer") :=
  Write_consumes_all_open_and_errors_nonempty_closed 4 (NewParallelWriter "p")
    { NewParallelWriter "p" with closed := true } [1, 2, 3] [7]
    (by omega) rfl (fun b hb => Option.noConfusion hb) rfl (by simp)

/-- C3: over every completed trace of Write and Close calls starting
from a fresh writer, Size() equals the cumulative number of bytes
accepted by the Write calls of the trace (each Write contributes exactly
the byte count it returned, so this holds at every observation point:
any prefix of the trace is itself a trace). -/
theorem Size_equals_accepted_bytes (C : Nat) (path : String) (ops : List WOp)
    (pw : parallelWriter) (acc : Nat)
    (h : runOps C (NewParallelWriter path) 0 ops = some (pw, acc)) :
    pw.Size = acc := by
  have hrun := runOps_size C ops (NewParallelWriter path) 0 pw acc h
  have h0 : (NewParallelWriter path).totalSize = 0 := rfl
  unfold parallelWriter.Size
  omega

/-- Witness for Size_equals_accepted_bytes on the trace
write [1,2,3,4,5]; Close; write [9]: the final write is rejected
(closed) and contributes 0, so Size is 5. -/
theorem Size_equals_accepted_bytes_witness :
    parallelWriter.Size
      { path := "p", buf := none, offset := 0, startOffset := 5, totalSize := 5,
        closed := true, cancelled := false,
        emitted := [⟨0, ⟨4, [1, 2, 3, 4]⟩⟩, ⟨4, ⟨1, [5, 0, 0, 0]⟩⟩] } = 5 :=
  Size_equals_accepted_bytes 4 "p" [WOp.write [1, 2, 3, 4, 5], WOp.close, WOp.write [9]]
    { path := "p", buf := none, offset := 0, startOffset := 5, totalSize := 5,
      closed := true, cancelled := false,
      emitted := [⟨0, ⟨4, [1, 2, 3, 4]⟩⟩, ⟨4, ⟨1, [5, 0, 0, 0]⟩⟩] } 5 rfl

end GCSParallel
